import Mathlib

/-!
Verification of the enclosure protocol layer of `fancontrol.py`
(lenovo-sa120-fanspeed-utility).

The program is shallowly embedded: byte strings exchanged with the
external `sg_ses` transport are modelled as `List Char`, whitespace
tokenization as a structural recursion matching Python `bytes.split()`,
integers as `Nat`/`Int` (Python integers are unbounded), and fallible
operations (a Python exception such as `IndexError` or
`CalledProcessError`) as `Option`.  External effects (the filesystem
`stat`, the `sg_ses` subprocess) are passed in as oracle functions, so
that every component of the script becomes a pure function of its
inputs.
-/

/-! ## Whitespace tokenization (`out.split()` in `set_fan_speeds`)

Python `bytes.split()` with no separator splits on runs of ASCII
whitespace (space, tab, newline, carriage return, vertical tab, form
feed) and never produces empty tokens. -/

/-- The six ASCII whitespace characters recognised by Python `bytes.split()`. -/
def isWs (c : Char) : Bool :=
  c = ' ' || c = '\t' || c = '\n' || c = '\r' || c = Char.ofNat 11 || c = Char.ofNat 12

/-- Worker for `tokenize`: scans the input once, accumulating the
characters of the current token in reverse in `acc` and emitting the
token at each whitespace boundary, exactly as `bytes.split()` groups
maximal runs of non-whitespace characters. -/
def tokenizeAux : List Char → List Char → List (List Char)
  | [], acc => if acc = [] then [] else [acc.reverse]
  | c :: rest, acc =>
    if isWs c then
      if acc = [] then tokenizeAux rest []
      else acc.reverse :: tokenizeAux rest []
    else tokenizeAux rest (c :: acc)

/-- `out.split()`: the whitespace-delimited tokens of a byte string, in
order, with no empty tokens. -/
def tokenize (l : List Char) : List (List Char) :=
  tokenizeAux l []

/-! ## Fan control encoder (`set_fan_speeds`) -/

/-- `u'\x7b:x\x7d'.format(n)`: lowercase hexadecimal rendering of a
non-negative integer with no padding, as produced by Python `format`.
`Nat.toDigits 16` uses the same lowercase digits. -/
def hexFmt (n : Nat) : List Char :=
  Nat.toDigits 16 n

/-- A single Python list-item assignment `s[i] = v`: succeeds exactly
when `i` is in range, otherwise raises `IndexError` (`none`).  (Python
also accepts negative indices, but every index used by
`set_fan_speeds` is non-negative.) -/
def setTok (s : List (List Char)) (i : Nat) (v : List Char) : Option (List (List Char)) :=
  if i < s.length then some (s.set i v) else none

/-- One iteration of the patch loop of `set_fan_speeds`: for fan `i`,
with `idx = 88 + 4*i`, perform
`s[idx] = b'80'; s[idx+1] = b'00'; s[idx+2] = b'00';
 s[idx+3] = format(1 << 5 | speed & 7, 'x')`. -/
def patchSlot (s : List (List Char)) (speed i : Nat) : Option (List (List Char)) :=
  (setTok s (88 + 4 * i) ['8', '0']).bind fun s1 =>
  (setTok s1 (88 + 4 * i + 1) ['0', '0']).bind fun s2 =>
  (setTok s2 (88 + 4 * i + 2) ['0', '0']).bind fun s3 =>
  setTok s3 (88 + 4 * i + 3) (hexFmt (1 <<< 5 ||| (speed &&& 7)))

/-- The whole patch loop `for i in range(0, 6): ...` of
`set_fan_speeds`.  The `Option` bind stops at the first out-of-range
assignment, as the uncaught `IndexError` would. -/
def patchFans (s : List (List Char)) (speed : Nat) : Option (List (List Char)) :=
  (List.range 6).foldlM (fun acc i => patchSlot acc speed i) s

/-- The separator written after a token when the incremented run-length
counter has value `count1`: a double space after the 8th token of a
group, a newline after the 16th, a single space otherwise. -/
def sepFor (count1 : Nat) : List Char :=
  if count1 = 8 then [' ', ' '] else if count1 = 16 then ['\n'] else [' ']

/-- The reserialization `while True:` loop of `set_fan_speeds`.  The
loop writes `s[off]`, increments `off` and the counter, writes the
separator chosen by the counter (resetting it after a newline), and
breaks once `off >= len(s)`; because `s[off]` is read before the exit
test, an empty token list raises `IndexError` (`none`).  The loop is
embedded structurally on the suffix `s.drop off`. -/
def serLoop : List (List Char) → Nat → Option (List Char)
  | [], _ => none
  | [tok], count => some (tok ++ sepFor (count + 1))
  | tok :: next :: rest, count =>
    (serLoop (next :: rest) (if count + 1 = 16 then 0 else count + 1)).map
      (fun r => tok ++ sepFor (count + 1) ++ r)

/-- The serialized control page submitted on stdin: the loop output
followed by the final `output.write(b'\n')`. -/
def reserialize (s : List (List Char)) : Option (List Char) :=
  (serLoop s 0).map (fun out => out ++ ['\n'])

/-- The full payload pipeline of `set_fan_speeds` for one device: the
raw page dump is tokenized, the six fan slots are patched, and the
result is reserialized; `none` means an uncaught exception occurred
before the control-page write was submitted. -/
def set_fan_speeds_payload (dump : List Char) (speed : Nat) : Option (List Char) :=
  (patchFans (tokenize dump) speed).bind reserialize

/-- The control-page read of `set_fan_speeds` (`check_output` of the
raw page) followed by the payload pipeline: a failed read (`none`)
propagates, since the `check_output` call is not wrapped in
`try`/`except`. -/
def set_fan_speeds_result (readOut : Option (List Char)) (speed : Nat) : Option (List Char) :=
  readOut.bind (fun dump => set_fan_speeds_payload dump speed)

/-! ## Fan telemetry decoder (`print_speeds`) -/

/-- `output.split('\n')[0]`: the first line of a query response. -/
def firstLine (out : List Char) : List Char :=
  out.takeWhile (fun c => !(c = '\n'))

/-- Python `str.isdigit()` restricted to ASCII: true exactly for a
non-empty string of decimal digits.  (The transport responses are
ASCII; for ASCII strings Python `isdigit` is exactly this test.) -/
def isdigitStr (s : List Char) : Bool :=
  !s.isEmpty && s.all (fun c => '0' ≤ c && c ≤ '9')

/-- `int(s)` on a string of decimal digits. -/
def natOfDigits (s : List Char) : Nat :=
  s.foldl (fun a c => 10 * a + (c.toNat - 48)) 0

/-- `int(fan_speed) if fan_speed.isdigit() else 0`: the per-fan reading
recorded by `print_speeds`.  The value is a Python integer, modelled as
`Int`. -/
def parse_fan_speed (line : List Char) : Int :=
  if isdigitStr line then (natOfDigits line : Int) else 0

/-- The query loop `for i in range(0, 6):` of `print_speeds`.  `sgGet i`
is the outcome of the per-fan `check_output` call (`none` for a
`CalledProcessError`, which is not caught and aborts the whole
invocation); each successful response contributes
`parse_fan_speed` of its first line to `fan_speeds`. -/
def print_speeds_readings (sgGet : Nat → Option (List Char)) : Option (List Int) :=
  (List.range 6).mapM (fun i => (sgGet i).map (fun out => parse_fan_speed (firstLine out)))

/-- `[speed for speed in fan_speeds if speed > 0]`. -/
def active_fan_speeds (fan_speeds : List Int) : List Int :=
  fan_speeds.filter (fun s => decide (0 < s))

/-- The fixed RPM midpoint table of `print_speeds`. -/
def fan_speed_levels : List Int :=
  [550, 925, 1100, 1250, 1400, 1575, 1700]

/-- The classification scan
`for level, rpm in enumerate(fan_speed_levels, start=1): if average_speed - 50 <= rpm <= average_speed + 50: ... break`
with its `for`/`else` fallthrough (`none` = "could not determine
level"). -/
def classifyAux (average_speed : Int) : List Int → Nat → Option Nat
  | [], _ => none
  | rpm :: rest, level =>
    if average_speed - 50 ≤ rpm ∧ rpm ≤ average_speed + 50 then some level
    else classifyAux average_speed rest (level + 1)

/-- The level reported for a given truncated mean. -/
def classify_level (average_speed : Int) : Option Nat :=
  classifyAux average_speed fan_speed_levels 1

/-- The aggregate step of `print_speeds`: `none` when no reading is
positive (`if active_fan_speeds:` fails), otherwise the pair of
`average_speed = int(sum(active)/len(active))` and the classified
level.  Python computes the mean through float division; for
non-negative operands `int(...)` of the quotient is the quotient
truncated toward zero, which for a non-negative sum equals `Int`
division by a positive count as used here. -/
def print_speeds_summary (fan_speeds : List Int) : Option (Int × Option Nat) :=
  let act := active_fan_speeds fan_speeds
  if act.isEmpty then none
  else
    let average_speed : Int := act.sum / (act.length : Int)
    some (average_speed, classify_level average_speed)

/-! ## Device enumerator and enclosure identifier (`find_sa120_devices`) -/

/-- The fields of `os.stat` used by `find_sa120_devices`: whether the
mode bits say character device (`stat.S_ISCHR`), and the major and
minor components of `st_rdev`. -/
structure DevStat where
  st_mode_ischr : Bool
  st_rdev_major : Nat
  st_rdev_minor : Nat
deriving DecidableEq

/-- `format_device_id`: `'\x7b\x7d,\x7b\x7d'.format(os.major(st_rdev), os.minor(st_rdev))`. -/
def format_device_id (stats : DevStat) : String :=
  toString stats.st_rdev_major ++ "," ++ toString stats.st_rdev_minor

/-- The (major, minor) identity key of a device. -/
def deviceKey (stats : DevStat) : Nat × Nat :=
  (stats.st_rdev_major, stats.st_rdev_minor)

/-- `p.isPrefixOf s` for character lists. -/
def listStartsWith : List Char → List Char → Bool
  | [], _ => true
  | _ :: _, [] => false
  | p :: ps, c :: cs => p = c && listStartsWith ps cs

/-- Python `pat in s` for byte strings: contiguous substring test. -/
def containsSub (pat : List Char) : List Char → Bool
  | [] => pat.isEmpty
  | c :: rest => listStartsWith pat (c :: rest) || containsSub pat rest

/-- The vendor/model signature `b'ThinkServerSA120'`. -/
def sa120sig : List Char :=
  "ThinkServerSA120".data

/-- One iteration of the device loop of `find_sa120_devices`, acting on
the state `(devices, seen_devices)`.  `stat` is the `os.stat` oracle
(`none` = `OSError`, skipped), and `sgSes` the identification
`check_output` oracle (`none` = `CalledProcessError`, caught and
treated as "enclosure not found").  A device is appended exactly when
it is a fresh character device whose query output contains the
signature. -/
def find_step (stat : String → Option DevStat) (sgSes : String → Option (List Char))
    (st : List String × List String) (device : String) : List String × List String :=
  match stat device with
  | none => st
  | some stats =>
    if !stats.st_mode_ischr then st
    else
      let device_id := format_device_id stats
      if st.2.contains device_id then st
      else
        let seen := device_id :: st.2
        match sgSes device with
        | none => (st.1, seen)
        | some output =>
          if containsSub sa120sig output then (st.1 ++ [device], seen)
          else (st.1, seen)

/-- `find_sa120_devices`, abstracted over the glob expansion (the
concatenated match lists of the four patterns, in order) and the two
external oracles.  Returns the accumulated `devices` list. -/
def find_sa120_devices (stat : String → Option DevStat) (sgSes : String → Option (List Char))
    (paths : List String) : List String :=
  (paths.foldl (find_step stat sgSes) ([], [])).1

/-! ## Transport invocations and the binary override -/

/-- `sg_ses_binary`: `"sg_ses"` unless `"sg_ses_path" in os.environ`,
in which case the environment value, read once at module load. -/
def sg_ses_binary (env : String → Option String) : String :=
  match env "sg_ses_path" with
  | some p => p
  | none => "sg_ses"

/-- The identification command of `find_sa120_devices`:
`[sg_ses_binary, '--maxlen=32768', device]`. -/
def identify_argv (env : String → Option String) (device : String) : List String :=
  [sg_ses_binary env, "--maxlen=32768", device]

/-- The per-fan telemetry command of `print_speeds`:
`[sg_ses_binary, '--maxlen=32768', '--index=coo,i', '--get=1:2:11', device]`. -/
def get_fan_argv (env : String → Option String) (i : Nat) (device : String) : List String :=
  [sg_ses_binary env, "--maxlen=32768", "--index=coo," ++ toString i, "--get=1:2:11", device]

/-- The control-page read command of `set_fan_speeds` (source line 82):
the binary name is the literal `'sg_ses'`, not `sg_ses_binary`. -/
def control_read_argv (device : String) : List String :=
  ["sg_ses", "--maxlen=32768", "-p", "0x2", device, "--raw"]

/-- The control-page write command of `set_fan_speeds` (source line
114): again the literal `'sg_ses'`, not `sg_ses_binary`. -/
def control_write_argv (device : String) : List String :=
  ["sg_ses", "--maxlen=32768", "-p", "0x2", device, "--control", "--data", "-"]

/-! ## Spec-side description of the serialized layout

The specification describes the reserialized control page as: tokens
space-separated, a double space after every 8th token, a newline after
every 16th token (resetting the run-length counter), and a trailing
newline at the end of the whole buffer.  The following definitions
state that layout directly in terms of the global 1-based token
position: with the counter resetting after each 16th token, the 8th
token of a group is the one whose position is 8 mod 16, and the 16th
is the one whose position is 0 mod 16. -/

/-- Written from the spec text, not the source: the separator following
the token at global 1-based position `j`. -/
def specSep (j : Nat) : List Char :=
  if j % 16 = 8 then [' ', ' '] else if j % 16 = 0 then ['\n'] else [' ']

/-- Written from the spec text, not the source: each token followed by
its position's separator, positions counted from `j`. -/
def specTokens (s : List (List Char)) (j : Nat) : List Char :=
  match s with
  | [] => []
  | t :: rest => t ++ specSep j ++ specTokens rest (j + 1)

/-- Written from the spec text, not the source: the whole conformant
buffer — positions counted from 1, plus the trailing newline. -/
def specLayout (s : List (List Char)) : List Char :=
  specTokens s 1 ++ ['\n']


/-! ## Tokenizer lemmas -/

/-- Scanning a run of non-whitespace characters only extends the
accumulator. -/
theorem tokenizeAux_nonws (t : List Char) :
    ∀ (rest acc : List Char), (∀ c ∈ t, isWs c = false) →
      tokenizeAux (t ++ rest) acc = tokenizeAux rest (t.reverse ++ acc) := by
  induction t with
  | nil => intro rest acc _; simp
  | cons c t ih =>
    intro rest acc h
    have hc : isWs c = false := h c (by simp)
    simp only [List.cons_append, tokenizeAux, hc, Bool.false_eq_true, if_false, List.append_eq]
    rw [ih rest (c :: acc) (fun d hd => h d (by simp [hd]))]
    simp

/-- Scanning a run of whitespace with an empty accumulator emits
nothing. -/
theorem tokenizeAux_ws_nil (w : List Char) :
    ∀ (rest : List Char), (∀ c ∈ w, isWs c = true) →
      tokenizeAux (w ++ rest) [] = tokenizeAux rest [] := by
  induction w with
  | nil => intro rest _; simp
  | cons c w ih =>
    intro rest h
    have hc : isWs c = true := h c (by simp)
    simp only [List.cons_append, tokenizeAux, hc, if_true, if_pos rfl]
    exact ih rest (fun d hd => h d (by simp [hd]))

/-- A non-empty whitespace-free token followed by a non-empty
whitespace run tokenizes to that token followed by the tokens of the
remainder. -/
theorem tokenize_cons_sep (t w r : List Char)
    (ht : t ≠ []) (htc : ∀ c ∈ t, isWs c = false)
    (hw : w ≠ []) (hwc : ∀ c ∈ w, isWs c = true) :
    tokenize (t ++ (w ++ r)) = t :: tokenize r := by
  unfold tokenize
  rw [tokenizeAux_nonws t (w ++ r) [] htc]
  cases w with
  | nil => exact absurd rfl hw
  | cons d w' =>
    have hd : isWs d = true := hwc d (by simp)
    have hne : t.reverse ++ [] ≠ [] := by simp [ht]
    simp only [List.cons_append, tokenizeAux, hd, if_true, if_neg hne, List.append_nil,
      List.reverse_reverse, List.append_eq]
    rw [tokenizeAux_ws_nil w' r (fun c hc => hwc c (by simp [hc]))]
    rw [if_neg (by simp [ht])]

/-- A pure whitespace run tokenizes to nothing. -/
theorem tokenize_all_ws (w : List Char) (hwc : ∀ c ∈ w, isWs c = true) :
    tokenize w = [] := by
  unfold tokenize
  have := tokenizeAux_ws_nil w [] hwc
  simpa using this

/-- Every token produced by the scanner is non-empty and free of
whitespace, provided the accumulator is. -/
theorem tokenizeAux_wf (l : List Char) :
    ∀ (acc : List Char), (∀ c ∈ acc, isWs c = false) →
      ∀ t ∈ tokenizeAux l acc, t ≠ [] ∧ ∀ c ∈ t, isWs c = false := by
  induction l with
  | nil =>
    intro acc hacc t htmem
    simp only [tokenizeAux] at htmem
    split at htmem
    · simp at htmem
    · rename_i hne
      simp only [List.mem_singleton] at htmem
      subst htmem
      refine ⟨by simpa using hne, ?_⟩
      intro c hc
      exact hacc c (List.mem_reverse.mp hc)
  | cons c rest ih =>
    intro acc hacc t htmem
    simp only [tokenizeAux] at htmem
    by_cases hc : isWs c = true
    · simp only [hc, if_true] at htmem
      split at htmem
      · exact ih [] (by simp) t htmem
      · rename_i hne
        rcases List.mem_cons.mp htmem with h | h
        · subst h
          refine ⟨by simpa using hne, ?_⟩
          intro d hd
          exact hacc d (List.mem_reverse.mp hd)
        · exact ih [] (by simp) t h
    · simp only [Bool.not_eq_true] at hc
      simp only [hc, Bool.false_eq_true, if_false] at htmem
      refine ih (c :: acc) ?_ t htmem
      intro d hd
      rcases List.mem_cons.mp hd with h | h
      · subst h; exact hc
      · exact hacc d h

/-- Every token of `tokenize l` is non-empty and whitespace-free. -/
theorem tokenize_wf (l : List Char) :
    ∀ t ∈ tokenize l, t ≠ [] ∧ ∀ c ∈ t, isWs c = false :=
  tokenizeAux_wf l [] (by simp)

/-! ## Serializer lemmas -/

/-- Total reformulation of `serLoop` for non-empty input, used in
proofs: each token is followed by the separator chosen by the running
counter. -/
def serTokens : List (List Char) → Nat → List Char
  | [], _ => []
  | tok :: rest, count =>
    tok ++ sepFor (count + 1) ++ serTokens rest (if count + 1 = 16 then 0 else count + 1)

/-- On a non-empty token list the loop cannot raise, and produces
`serTokens`. -/
theorem serLoop_eq_serTokens (s : List (List Char)) :
    ∀ count : Nat, s ≠ [] → serLoop s count = some (serTokens s count) := by
  induction s with
  | nil => intro count h; exact absurd rfl h
  | cons tok rest ih =>
    intro count _
    cases rest with
    | nil => simp [serLoop, serTokens]
    | cons next rest' =>
      by_cases h16 : count + 1 = 16 <;>
        simp [serLoop, serTokens, h16, ih _ (by simp), List.append_assoc]

/-- Every separator is a non-empty run of whitespace. -/
theorem sepFor_wf (k : Nat) : sepFor k ≠ [] ∧ ∀ c ∈ sepFor k, isWs c = true := by
  unfold sepFor
  split_ifs <;> exact ⟨by simp, by decide⟩

/-- Retokenizing serialized well-formed tokens recovers them exactly,
whatever the initial counter value. -/
theorem tokenize_serTokens (s : List (List Char))
    (hwf : ∀ t ∈ s, t ≠ [] ∧ ∀ c ∈ t, isWs c = false) :
    ∀ count : Nat, tokenize (serTokens s count ++ ['\n']) = s := by
  induction s with
  | nil =>
    intro count
    simp only [serTokens, List.nil_append]
    exact tokenize_all_ws ['\n'] (by decide)
  | cons tok rest ih =>
    intro count
    obtain ⟨htne, htc⟩ := hwf tok (by simp)
    simp only [serTokens, List.append_assoc]
    rw [tokenize_cons_sep tok (sepFor (count + 1)) _ htne htc
      (sepFor_wf (count + 1)).1 (sepFor_wf (count + 1)).2]
    rw [ih (fun t ht => hwf t (by simp [ht]))]

/-- The loop's counter-based separator agrees with the spec's
position-based one, when the counter and the 1-based position agree
modulo 16. -/
theorem sepFor_eq_specSep (count j : Nat) (hc : count < 16)
    (hj : j % 16 = (count + 1) % 16) : sepFor (count + 1) = specSep j := by
  unfold sepFor specSep
  by_cases h8 : count + 1 = 8
  · rw [if_pos h8, if_pos (by omega)]
  · by_cases h16 : count + 1 = 16
    · rw [if_neg h8, if_pos h16, if_neg (by omega), if_pos (by omega)]
    · rw [if_neg h8, if_neg h16, if_neg (by omega), if_neg (by omega)]

/-- The stateful serialization loop produces exactly the layout the
spec describes, for any token list. -/
theorem serTokens_eq_specTokens (s : List (List Char)) :
    ∀ count j : Nat, count < 16 → j % 16 = (count + 1) % 16 →
      serTokens s count = specTokens s j := by
  induction s with
  | nil => intro count j _ _; rfl
  | cons tok rest ih =>
    intro count j hc hj
    simp only [serTokens, specTokens]
    rw [sepFor_eq_specSep count j hc hj]
    by_cases h16 : count + 1 = 16
    · rw [if_pos h16, ih 0 (j + 1) (by omega) (by omega)]
    · rw [if_neg h16, ih (count + 1) (j + 1) (by omega) (by omega)]

/-! ## Patch-loop lemmas -/

theorem setTok_lt {s : List (List Char)} {i : Nat} (v : List Char) (h : i < s.length) :
    setTok s i v = some (s.set i v) := by
  simp [setTok, h]

theorem setTok_ge {s : List (List Char)} {i : Nat} (v : List Char) (h : s.length ≤ i) :
    setTok s i v = none := by
  simp [setTok]; omega

/-- The pure effect of one successful patch-loop iteration. -/
def slotSet (s : List (List Char)) (speed i : Nat) : List (List Char) :=
  (((s.set (88 + 4 * i) ['8', '0']).set (88 + 4 * i + 1) ['0', '0']).set (88 + 4 * i + 2)
    ['0', '0']).set (88 + 4 * i + 3) (hexFmt (1 <<< 5 ||| (speed &&& 7)))

theorem length_slotSet (s : List (List Char)) (speed i : Nat) :
    (slotSet s speed i).length = s.length := by
  simp [slotSet]

theorem patchSlot_eq {s : List (List Char)} (speed i : Nat) (h : 88 + 4 * i + 3 < s.length) :
    patchSlot s speed i = some (slotSet s speed i) := by
  unfold patchSlot
  rw [setTok_lt _ (by omega), Option.some_bind]
  rw [setTok_lt _ (by simp only [List.length_set]; omega), Option.some_bind]
  rw [setTok_lt _ (by simp only [List.length_set]; omega), Option.some_bind]
  rw [setTok_lt _ (by simp only [List.length_set]; omega)]
  rfl

theorem patchSlot_none {s : List (List Char)} (speed i : Nat) (h : s.length ≤ 88 + 4 * i + 3) :
    patchSlot s speed i = none := by
  unfold patchSlot
  by_cases h0 : 88 + 4 * i < s.length
  · rw [setTok_lt _ h0, Option.some_bind]
    by_cases h1 : 88 + 4 * i + 1 < s.length
    · rw [setTok_lt _ (by simp only [List.length_set]; omega), Option.some_bind]
      by_cases h2 : 88 + 4 * i + 2 < s.length
      · rw [setTok_lt _ (by simp only [List.length_set]; omega), Option.some_bind]
        rw [setTok_ge _ (by simp only [List.length_set]; omega)]
      · rw [setTok_ge _ (by simp only [List.length_set]; omega)]
        rfl
    · rw [setTok_ge _ (by simp only [List.length_set]; omega)]
      rfl
  · rw [setTok_ge _ (by omega)]
    rfl

/-- The combined effect of the six successful patch-loop iterations. -/
def patchAll (s : List (List Char)) (speed : Nat) : List (List Char) :=
  slotSet (slotSet (slotSet (slotSet (slotSet (slotSet s speed 0) speed 1) speed 2)
    speed 3) speed 4) speed 5

theorem length_patchAll (s : List (List Char)) (speed : Nat) :
    (patchAll s speed).length = s.length := by
  simp [patchAll, length_slotSet]

/-- With at least 112 tokens, every assignment of the patch loop is in
range and the loop computes `patchAll`. -/
theorem patchFans_eq {s : List (List Char)} (speed : Nat) (h : 112 ≤ s.length) :
    patchFans s speed = some (patchAll s speed) := by
  unfold patchFans
  rw [show List.range 6 = [0, 1, 2, 3, 4, 5] from rfl]
  simp only [List.foldlM_cons, List.foldlM_nil, Option.bind_eq_bind, Option.pure_def]
  rw [patchSlot_eq speed 0 (by omega), Option.some_bind]
  rw [patchSlot_eq speed 1 (by simp only [length_slotSet]; omega), Option.some_bind]
  rw [patchSlot_eq speed 2 (by simp only [length_slotSet]; omega), Option.some_bind]
  rw [patchSlot_eq speed 3 (by simp only [length_slotSet]; omega), Option.some_bind]
  rw [patchSlot_eq speed 4 (by simp only [length_slotSet]; omega), Option.some_bind]
  rw [patchSlot_eq speed 5 (by simp only [length_slotSet]; omega), Option.some_bind]
  rfl

/-- With fewer than 112 tokens the patch loop stops at the first
out-of-range assignment. -/
theorem patchFans_none {s : List (List Char)} (speed : Nat) (h : s.length < 112) :
    patchFans s speed = none := by
  unfold patchFans
  rw [show List.range 6 = [0, 1, 2, 3, 4, 5] from rfl]
  simp only [List.foldlM_cons, List.foldlM_nil, Option.bind_eq_bind, Option.pure_def]
  by_cases c0 : s.length ≤ 91
  · rw [patchSlot_none speed 0 (by omega)]
    rfl
  · rw [patchSlot_eq speed 0 (by omega), Option.some_bind]
    by_cases c1 : s.length ≤ 95
    · rw [patchSlot_none speed 1 (by simp only [length_slotSet]; omega)]
      rfl
    · rw [patchSlot_eq speed 1 (by simp only [length_slotSet]; omega), Option.some_bind]
      by_cases c2 : s.length ≤ 99
      · rw [patchSlot_none speed 2 (by simp only [length_slotSet]; omega)]
        rfl
      · rw [patchSlot_eq speed 2 (by simp only [length_slotSet]; omega), Option.some_bind]
        by_cases c3 : s.length ≤ 103
        · rw [patchSlot_none speed 3 (by simp only [length_slotSet]; omega)]
          rfl
        · rw [patchSlot_eq speed 3 (by simp only [length_slotSet]; omega), Option.some_bind]
          by_cases c4 : s.length ≤ 107
          · rw [patchSlot_none speed 4 (by simp only [length_slotSet]; omega)]
            rfl
          · rw [patchSlot_eq speed 4 (by simp only [length_slotSet]; omega), Option.some_bind]
            rw [patchSlot_none speed 5 (by simp only [length_slotSet]; omega)]
            rfl

/-- Positions outside the 24 patched offsets 88..111 are untouched. -/
theorem patchAll_get_outside {s : List (List Char)} (speed : Nat) {j : Nat}
    (hj : j < 88 ∨ 112 ≤ j) : (patchAll s speed)[j]? = s[j]? := by
  unfold patchAll slotSet
  iterate 24 rw [List.getElem?_set_ne (by omega)]

/-- The four tokens of each fan slot after patching. -/
theorem patchAll_get_slot {s : List (List Char)} (speed : Nat) (h : 112 ≤ s.length) (i : Nat)
    (hi : i < 6) :
    (patchAll s speed)[88 + 4 * i]? = some ['8', '0'] ∧
    (patchAll s speed)[88 + 4 * i + 1]? = some ['0', '0'] ∧
    (patchAll s speed)[88 + 4 * i + 2]? = some ['0', '0'] ∧
    (patchAll s speed)[88 + 4 * i + 3]? = some (hexFmt (1 <<< 5 ||| (speed &&& 7))) := by
  interval_cases i <;>
    refine ⟨?_, ?_, ?_, ?_⟩ <;>
      (unfold patchAll slotSet
       repeat rw [List.getElem?_set_ne (by omega)]
       rw [List.getElem?_set_self (by (try simp only [List.length_set]); omega)])

/-- Decode one of the program's lowercase-hex tokens back to a byte
value (used only to state what the written token denotes). -/
def hexVal (s : List Char) : Nat :=
  s.foldl (fun a c => 16 * a + (if c ≤ '9' then c.toNat - 48 else c.toNat - 87)) 0

/-- `speed & 7` keeps exactly the low three bits. -/
theorem land_seven (speed : Nat) : speed &&& 7 = speed % 8 := by
  have h := Nat.and_pow_two_sub_one_eq_mod speed 3
  norm_num at h
  exact h

/-- The fourth slot byte is the 0x20 flag plus the low three bits of
the requested speed, and its hex token denotes exactly that value. -/
theorem hexFmt_byte (speed : Nat) :
    1 <<< 5 ||| (speed &&& 7) = 32 + speed % 8 ∧
    hexVal (hexFmt (1 <<< 5 ||| (speed &&& 7))) = 32 + speed % 8 := by
  rw [land_seven]
  have h8 : speed % 8 < 8 := Nat.mod_lt _ (by omega)
  set m := speed % 8 with hm
  clear hm
  interval_cases m <;> exact ⟨by decide, by decide⟩

/-! ## Classification lemmas -/

/-- The scan returns `some l` exactly when the table entry at relative
position `l - j` is the first one inside the inclusive ±50 window. -/
theorem classifyAux_some_iff (avg : Int) (L : List Int) :
    ∀ j l : Nat,
      classifyAux avg L j = some l ↔
        ∃ k m, l = j + k ∧ L[k]? = some m ∧ (avg - 50 ≤ m ∧ m ≤ avg + 50) ∧
          ∀ k' m', k' < k → L[k']? = some m' → ¬(avg - 50 ≤ m' ∧ m' ≤ avg + 50) := by
  induction L with
  | nil => intro j l; simp [classifyAux]
  | cons rpm rest ih =>
    intro j l
    simp only [classifyAux]
    by_cases hw : avg - 50 ≤ rpm ∧ rpm ≤ avg + 50
    · rw [if_pos hw]
      constructor
      · intro h
        have hl : j = l := by injection h
        refine ⟨0, rpm, by omega, by simp, hw, ?_⟩
        intro k' m' hk' _
        omega
      · rintro ⟨k, m, hl, hget, hm, hearlier⟩
        cases k with
        | zero =>
          have : rpm = m := by simpa using hget
          simp [hl]
        | succ k0 =>
          exact absurd hw (hearlier 0 rpm (by omega) (by simp))
    · rw [if_neg hw]
      rw [ih (j + 1) l]
      constructor
      · rintro ⟨k, m, hl, hget, hm, hearlier⟩
        refine ⟨k + 1, m, by omega, by simpa using hget, hm, ?_⟩
        intro k' m' hk' hget'
        cases k' with
        | zero =>
          have : rpm = m' := by simpa using hget'
          subst this
          exact hw
        | succ k0 => exact hearlier k0 m' (by omega) (by simpa using hget')
      · rintro ⟨k, m, hl, hget, hm, hearlier⟩
        cases k with
        | zero =>
          have : rpm = m := by simpa using hget
          subst this
          exact absurd hm hw
        | succ k0 =>
          refine ⟨k0, m, by omega, by simpa using hget, hm, ?_⟩
          intro k' m' hk' hget'
          exact hearlier (k' + 1) m' (by omega) (by simpa using hget')

/-- The scan falls through to the `else` branch exactly when no table
entry lies in the window. -/
theorem classifyAux_none_iff (avg : Int) (L : List Int) :
    ∀ j : Nat,
      classifyAux avg L j = none ↔ ∀ m ∈ L, ¬(avg - 50 ≤ m ∧ m ≤ avg + 50) := by
  induction L with
  | nil => intro j; simp [classifyAux]
  | cons rpm rest ih =>
    intro j
    simp only [classifyAux]
    by_cases hw : avg - 50 ≤ rpm ∧ rpm ≤ avg + 50
    · rw [if_pos hw]
      constructor
      · intro h
        exact absurd h (by simp)
      · intro h
        exact absurd hw (h rpm (by simp))
    · rw [if_neg hw]
      rw [ih (j + 1)]
      constructor
      · intro h m hm
        rcases List.mem_cons.mp hm with h1 | h1
        · subst h1; exact hw
        · exact h m h1
      · intro h m hm
        exact h m (by simp [hm])

/-- In a list whose entries are pairwise more than 100 apart, at most
one entry can lie in any inclusive ±50 window. -/
theorem countP_window_le_one (avg : Int) (L : List Int)
    (hgap : L.Pairwise (fun a b => 100 < (a - b).natAbs)) :
    L.countP (fun m => decide (avg - 50 ≤ m ∧ m ≤ avg + 50)) ≤ 1 := by
  induction L with
  | nil => simp
  | cons a L ih =>
    rcases List.pairwise_cons.mp hgap with ⟨ha, hL⟩
    by_cases hw : avg - 50 ≤ a ∧ a ≤ avg + 50
    · have hzero : L.countP (fun m => decide (avg - 50 ≤ m ∧ m ≤ avg + 50)) = 0 := by
        rw [List.countP_eq_zero]
        intro b hb
        have := ha b hb
        simp only [decide_eq_true_eq]
        omega
      rw [List.countP_cons, hzero]
      simp [hw]
    · have hpa : decide (avg - 50 ≤ a ∧ a ≤ avg + 50) = false := decide_eq_false hw
      rw [List.countP_cons]
      simp only [hpa, Bool.false_eq_true, if_false]
      simpa using ih hL

/-- The concrete midpoint table is pairwise more than 100 RPM apart. -/
theorem fan_speed_levels_gap :
    fan_speed_levels.Pairwise (fun a b => 100 < (a - b).natAbs) := by
  decide

/-! ## Enumerator lemmas -/

/-- The identity key the enumerator would compute for a path, when its
`stat` succeeds. -/
def statKey (stat : String → Option DevStat) (p : String) : Option String :=
  (stat p).map format_device_id

/-- Each loop iteration either keeps the device list or appends the
current path. -/
theorem find_step_fst (stat : String → Option DevStat) (sgSes : String → Option (List Char))
    (st : List String × List String) (p : String) :
    (find_step stat sgSes st p).1 = st.1 ∨ (find_step stat sgSes st p).1 = st.1 ++ [p] := by
  unfold find_step
  rcases stat p with _ | stats
  · exact Or.inl rfl
  · by_cases hc : stats.st_mode_ischr
    · simp only [hc, Bool.not_true, Bool.false_eq_true, if_false]
      by_cases hs : st.2.contains (format_device_id stats)
      · rw [if_pos hs]
        exact Or.inl rfl
      · rw [if_neg (by simpa using hs)]
        rcases sgSes p with _ | output
        · exact Or.inl rfl
        · by_cases hsig : containsSub sa120sig output
          · simp [hsig]
          · simp [hsig]
    · simp [hc]

/-- The loop invariant of `find_sa120_devices`: every accumulated
device is a character device whose key has been recorded in
`seen_devices`, and no two accumulated devices share a key. -/
def findInv (stat : String → Option DevStat) (st : List String × List String) : Prop :=
  (∀ p ∈ st.1, ∃ stats, stat p = some stats ∧ stats.st_mode_ischr = true ∧
    format_device_id stats ∈ st.2) ∧
  st.1.Pairwise (fun p q => statKey stat p ≠ statKey stat q)

theorem find_step_inv (stat : String → Option DevStat) (sgSes : String → Option (List Char))
    (st : List String × List String) (p : String) (h : findInv stat st) :
    findInv stat (find_step stat sgSes st p) := by
  obtain ⟨hmem, hpw⟩ := h
  unfold find_step
  rcases hstat : stat p with _ | stats
  · exact ⟨hmem, hpw⟩
  · by_cases hc : stats.st_mode_ischr
    · simp only [hc, Bool.not_true, Bool.false_eq_true, if_false]
      by_cases hs : st.2.contains (format_device_id stats)
      · simp only [hs, if_true]
        exact ⟨hmem, hpw⟩
      · simp only [hs, Bool.false_eq_true, if_false]
        have hseen : ∀ q ∈ st.1, ∃ stq, stat q = some stq ∧ stq.st_mode_ischr = true ∧
            format_device_id stq ∈ format_device_id stats :: st.2 := by
          intro q hq
          obtain ⟨stq, h1, h2, h3⟩ := hmem q hq
          exact ⟨stq, h1, h2, by simp [h3]⟩
        rcases sgSes p with _ | output
        · exact ⟨hseen, hpw⟩
        · by_cases hsig : containsSub sa120sig output
          · simp only [hsig, if_true]
            constructor
            · intro q hq
              rcases List.mem_append.mp hq with h1 | h1
              · exact hseen q h1
              · have : q = p := by simpa using h1
                subst this
                exact ⟨stats, hstat, hc, by simp⟩
            · rw [List.pairwise_append]
              refine ⟨hpw, by simp, ?_⟩
              intro a ha b hb
              have : b = p := by simpa using hb
              subst this
              obtain ⟨sta, h1, _, h3⟩ := hmem a ha
              intro hkey
              rw [statKey, statKey, hstat, h1] at hkey
              have heq : format_device_id sta = format_device_id stats := by
                simpa using hkey
              rw [heq] at h3
              exact hs (List.elem_eq_true_of_mem h3)
          · simp only [hsig, Bool.false_eq_true, if_false]
            exact ⟨hseen, hpw⟩
    · simp [hc]
      exact ⟨hmem, hpw⟩

/-- The invariant holds after folding over any path list. -/
theorem find_foldl_inv (stat : String → Option DevStat) (sgSes : String → Option (List Char))
    (paths : List String) :
    ∀ st, findInv stat st → findInv stat (paths.foldl (find_step stat sgSes) st) := by
  induction paths with
  | nil => intro st h; exact h
  | cons p rest ih =>
    intro st h
    exact ih _ (find_step_inv stat sgSes st p h)

/-- The devices accumulated by the fold extend the initial ones by a
subsequence of the scanned paths. -/
theorem find_foldl_sublist (stat : String → Option DevStat) (sgSes : String → Option (List Char))
    (paths : List String) :
    ∀ st, ∃ extra, (paths.foldl (find_step stat sgSes) st).1 = st.1 ++ extra ∧
      extra.Sublist paths := by
  induction paths with
  | nil => intro st; exact ⟨[], by simp, by simp⟩
  | cons p rest ih =>
    intro st
    obtain ⟨extra, he, hsub⟩ := ih (find_step stat sgSes st p)
    simp only [List.foldl_cons]
    rcases find_step_fst stat sgSes st p with h1 | h1
    · exact ⟨extra, by rw [he, h1], hsub.trans (List.sublist_cons_self p rest)⟩
    · refine ⟨p :: extra, ?_, hsub.cons₂ p⟩
      rw [he, h1, List.append_assoc]
      rfl

/-- A non-empty token sequence reserializes without error to exactly
the layout described by the spec. -/
theorem reserialize_eq_specLayout (s : List (List Char)) (h : s ≠ []) :
    reserialize s = some (specLayout s) := by
  unfold reserialize specLayout
  rw [serLoop_eq_serTokens s 0 h]
  rw [serTokens_eq_specTokens s 0 1 (by omega) (by omega)]
  rfl

/-! ## Claims about the fan control encoder -/

/-- C1: for every matched device and every requested integer speed, the
control encoder overwrites, for each fan index `i` in 0..5, the four
tokens at offsets `88 + 4*i` .. `88 + 4*i + 3` of the tokenized control
page with the byte values `0x80`, `0x00`, `0x00` and
`0x20 ||| (speed &&& 7)`; the fourth byte is the fixed `0x20` flag
combined with the low three bits of the speed, and the same four-byte
value is written into all six fan slots. -/
theorem C1_patch_slots (speed : Nat) (s : List (List Char)) (h : 112 ≤ s.length) :
    ∃ s', patchFans s speed = some s' ∧
      (∀ i, i < 6 →
        s'[88 + 4 * i]? = some ['8', '0'] ∧
        s'[88 + 4 * i + 1]? = some ['0', '0'] ∧
        s'[88 + 4 * i + 2]? = some ['0', '0'] ∧
        s'[88 + 4 * i + 3]? = some (hexFmt (1 <<< 5 ||| (speed &&& 7)))) ∧
      1 <<< 5 ||| (speed &&& 7) = 32 + speed % 8 ∧
      hexVal (hexFmt (1 <<< 5 ||| (speed &&& 7))) = 32 + speed % 8 :=
  ⟨patchAll s speed, patchFans_eq speed h,
    fun i hi => patchAll_get_slot speed h i hi, (hexFmt_byte speed).1, (hexFmt_byte speed).2⟩

/-- A 112-token control page used to instantiate the encoder claims. -/
def dump112 : List (List Char) :=
  List.replicate 112 ['0', '0']

/-- Witness for C1 at speed 9: the masked value is 9 &&& 7 = 1, the
written byte is 0x21, and all six slots receive it. -/
theorem C1_patch_slots_witness :
    112 ≤ dump112.length ∧
      ∃ s', patchFans dump112 9 = some s' ∧
        (∀ i, i < 6 →
          s'[88 + 4 * i]? = some ['8', '0'] ∧
          s'[88 + 4 * i + 1]? = some ['0', '0'] ∧
          s'[88 + 4 * i + 2]? = some ['0', '0'] ∧
          s'[88 + 4 * i + 3]? = some (hexFmt (1 <<< 5 ||| (9 &&& 7)))) ∧
        1 <<< 5 ||| (9 &&& 7) = 32 + 9 % 8 ∧
        hexVal (hexFmt (1 <<< 5 ||| (9 &&& 7))) = 32 + 9 % 8 :=
  ⟨by decide, C1_patch_slots 9 dump112 (by decide)⟩

/-- C2: for every control-page token sequence of sufficient length and
every requested speed, the encoder leaves every token outside offsets
88..111 unchanged: the patched sequence has the same length, agrees
with the original at every position outside the patched range, and
reserializes to the conformant layout of exactly its tokens. -/
theorem C2_frame_preserved (speed : Nat) (s : List (List Char)) (h : 112 ≤ s.length) :
    ∃ s', patchFans s speed = some s' ∧ s'.length = s.length ∧
      (∀ j, j < 88 ∨ 112 ≤ j → s'[j]? = s[j]?) ∧
      reserialize s' = some (specLayout s') := by
  refine ⟨patchAll s speed, patchFans_eq speed h, length_patchAll s speed,
    fun j hj => patchAll_get_outside speed hj, ?_⟩
  refine reserialize_eq_specLayout _ (List.ne_nil_of_length_pos ?_)
  rw [length_patchAll]
  omega

/-- Witness for C2 on a concrete 112-token page. -/
theorem C2_frame_preserved_witness :
    112 ≤ dump112.length ∧
      ∃ s', patchFans dump112 3 = some s' ∧ s'.length = dump112.length ∧
        (∀ j, j < 88 ∨ 112 ≤ j → s'[j]? = dump112[j]?) ∧
        reserialize s' = some (specLayout s') :=
  ⟨by decide, C2_frame_preserved 3 dump112 (by decide)⟩

/-- C3: tokenizing a control-page dump and immediately reserializing it
without patching reproduces exactly the grouping the spec describes —
each token followed by a single space, a double space after the 8th
token of each 16-token group, a newline after the 16th (counter reset),
and a trailing newline — and retokenizing that output recovers the
original token sequence byte-identically, for every non-empty token
sequence. -/
theorem C3_roundtrip (dump : List Char) (h : tokenize dump ≠ []) :
    ∃ out, reserialize (tokenize dump) = some out ∧ out = specLayout (tokenize dump) ∧
      tokenize out = tokenize dump := by
  refine ⟨specLayout (tokenize dump), reserialize_eq_specLayout _ h, rfl, ?_⟩
  have hwf := tokenize_wf dump
  have hspec : specLayout (tokenize dump) = serTokens (tokenize dump) 0 ++ ['\n'] := by
    unfold specLayout
    rw [serTokens_eq_specTokens (tokenize dump) 0 1 (by omega) (by omega)]
  rw [hspec]
  exact tokenize_serTokens (tokenize dump) hwf 0

/-- A concrete 20-token raw dump (crossing both the 8-token and the
16-token boundary). -/
def rawDump20 : List Char :=
  ("00 01 02 03 04 05 06 07 08 09 0a 0b 0c 0d 0e 0f" ++ "\n" ++ "10 11 12 13").data

/-- Witness for C3 on the concrete 20-token dump. -/
theorem C3_roundtrip_witness :
    tokenize rawDump20 ≠ [] ∧
      ∃ out, reserialize (tokenize rawDump20) = some out ∧
        out = specLayout (tokenize rawDump20) ∧ tokenize out = tokenize rawDump20 :=
  ⟨by decide, C3_roundtrip rawDump20 (by decide)⟩

/-- C9: the encoder presupposes at least 112 tokens.  The payload
pipeline raises (no write is submitted) exactly when the tokenized dump
has fewer than 112 tokens — including an empty dump — and with at least
112 tokens neither the patch loop nor the reserialization loop indexes
out of range: both produce results and the write payload exists. -/
theorem C9_length_guard (dump : List Char) (speed : Nat) :
    (set_fan_speeds_payload dump speed = none ↔ (tokenize dump).length < 112) ∧
    (112 ≤ (tokenize dump).length →
      ∃ s' out, patchFans (tokenize dump) speed = some s' ∧ reserialize s' = some out ∧
        set_fan_speeds_payload dump speed = some out) := by
  have hsome : 112 ≤ (tokenize dump).length →
      ∃ s' out, patchFans (tokenize dump) speed = some s' ∧ reserialize s' = some out ∧
        set_fan_speeds_payload dump speed = some out := by
    intro h
    have hne : patchAll (tokenize dump) speed ≠ [] := by
      refine List.ne_nil_of_length_pos ?_
      rw [length_patchAll]
      omega
    refine ⟨patchAll (tokenize dump) speed, specLayout (patchAll (tokenize dump) speed),
      patchFans_eq speed h, reserialize_eq_specLayout _ hne, ?_⟩
    unfold set_fan_speeds_payload
    rw [patchFans_eq speed h, Option.some_bind, reserialize_eq_specLayout _ hne]
  refine ⟨⟨?_, ?_⟩, hsome⟩
  · intro h
    by_contra hlen
    push_neg at hlen
    obtain ⟨s', out, _, _, hpay⟩ := hsome hlen
    rw [hpay] at h
    exact Option.some_ne_none out h
  · intro h
    unfold set_fan_speeds_payload
    rw [patchFans_none speed h]
    rfl

/-- A concrete raw dump with exactly 112 tokens. -/
def rawDump112 : List Char :=
  (List.replicate 112 (['0', '0', ' '] : List Char)).flatten

/-- Witness for C9: on a 112-token dump the pipeline produces a
payload. -/
theorem C9_length_guard_witness :
    112 ≤ (tokenize rawDump112).length ∧
      (set_fan_speeds_payload rawDump112 3 = none ↔ (tokenize rawDump112).length < 112) ∧
      ∃ s' out, patchFans (tokenize rawDump112) 3 = some s' ∧ reserialize s' = some out ∧
        set_fan_speeds_payload rawDump112 3 = some out :=
  ⟨by decide, (C9_length_guard rawDump112 3).1, (C9_length_guard rawDump112 3).2 (by decide)⟩

/-! ## Claims about the fan telemetry decoder -/

theorem parse_fan_speed_nonneg (line : List Char) : 0 ≤ parse_fan_speed line := by
  unfold parse_fan_speed
  split
  · exact Int.ofNat_nonneg _
  · exact le_refl 0

theorem parse_fan_speed_of_not_digit {line : List Char} (h : isdigitStr line = false) :
    parse_fan_speed line = 0 := by
  unfold parse_fan_speed
  rw [if_neg (by simp [h])]

/-- C6: when all six per-fan queries succeed, the decoder produces
exactly six readings, one per fan index 0..5; each reading is the
parsed first output line, is never negative, and is 0 whenever that
line is not a string of decimal digits. -/
theorem C6_readings (sgGet : Nat → Option (List Char)) (h : ∀ i, i < 6 → (sgGet i).isSome) :
    ∃ rs, print_speeds_readings sgGet = some rs ∧ rs.length = 6 ∧
      ∀ i, i < 6 → ∃ out, sgGet i = some out ∧
        rs[i]? = some (parse_fan_speed (firstLine out)) ∧
        0 ≤ parse_fan_speed (firstLine out) ∧
        (isdigitStr (firstLine out) = false → parse_fan_speed (firstLine out) = 0) := by
  obtain ⟨o0, h0⟩ := Option.isSome_iff_exists.mp (h 0 (by omega))
  obtain ⟨o1, h1⟩ := Option.isSome_iff_exists.mp (h 1 (by omega))
  obtain ⟨o2, h2⟩ := Option.isSome_iff_exists.mp (h 2 (by omega))
  obtain ⟨o3, h3⟩ := Option.isSome_iff_exists.mp (h 3 (by omega))
  obtain ⟨o4, h4⟩ := Option.isSome_iff_exists.mp (h 4 (by omega))
  obtain ⟨o5, h5⟩ := Option.isSome_iff_exists.mp (h 5 (by omega))
  refine ⟨[parse_fan_speed (firstLine o0), parse_fan_speed (firstLine o1),
    parse_fan_speed (firstLine o2), parse_fan_speed (firstLine o3),
    parse_fan_speed (firstLine o4), parse_fan_speed (firstLine o5)], ?_, rfl, ?_⟩
  · unfold print_speeds_readings
    rw [show List.range 6 = [0, 1, 2, 3, 4, 5] from rfl]
    simp [List.mapM.loop, h0, h1, h2, h3, h4, h5]
  · intro i hi
    interval_cases i
    · exact ⟨o0, h0, by simp, parse_fan_speed_nonneg _, fun hd => parse_fan_speed_of_not_digit hd⟩
    · exact ⟨o1, h1, by simp, parse_fan_speed_nonneg _, fun hd => parse_fan_speed_of_not_digit hd⟩
    · exact ⟨o2, h2, by simp, parse_fan_speed_nonneg _, fun hd => parse_fan_speed_of_not_digit hd⟩
    · exact ⟨o3, h3, by simp, parse_fan_speed_nonneg _, fun hd => parse_fan_speed_of_not_digit hd⟩
    · exact ⟨o4, h4, by simp, parse_fan_speed_nonneg _, fun hd => parse_fan_speed_of_not_digit hd⟩
    · exact ⟨o5, h5, by simp, parse_fan_speed_nonneg _, fun hd => parse_fan_speed_of_not_digit hd⟩

/-- Concrete per-fan query outcomes: fan 0 answers with a non-numeric
line, fan 1 with a negative-looking line, the rest with digits. -/
def sgGetDemo : Nat → Option (List Char) :=
  fun i =>
    if i = 0 then some ("Err".data)
    else if i = 1 then some ("-5".data)
    else some (("120" ++ "0" ++ "\n" ++ "junk").data)

/-- Witness for C6: non-numeric and negative-text lines decode to 0,
digit lines to their value, and six readings are produced. -/
theorem C6_readings_witness :
    (∀ i, i < 6 → (sgGetDemo i).isSome) ∧
      ∃ rs, print_speeds_readings sgGetDemo = some rs ∧ rs.length = 6 ∧
        ∀ i, i < 6 → ∃ out, sgGetDemo i = some out ∧
          rs[i]? = some (parse_fan_speed (firstLine out)) ∧
          0 ≤ parse_fan_speed (firstLine out) ∧
          (isdigitStr (firstLine out) = false → parse_fan_speed (firstLine out) = 0) :=
  ⟨by decide, C6_readings sgGetDemo (by decide)⟩

/-- C5: for every six-element list of fan readings, the aggregate is
taken over only the positive readings: if none is positive no level is
classified; otherwise the reported mean `avg` is the truncated
arithmetic mean of the positive readings, the reported level is the
1-based position of the first midpoint inside the inclusive ±50 window
around `avg`, and no level is reported when no midpoint is inside the
window; in particular readings [1200, 1210, 1190, 0, 0, 0] yield mean
1200 and level 4. -/
theorem C5_summary (fan_speeds : List Int) (_hlen : fan_speeds.length = 6) :
    (active_fan_speeds fan_speeds = [] → print_speeds_summary fan_speeds = none) ∧
    (active_fan_speeds fan_speeds ≠ [] →
      ∃ avg lvl, print_speeds_summary fan_speeds = some (avg, lvl) ∧
        ((active_fan_speeds fan_speeds).length : Int) * avg ≤
          (active_fan_speeds fan_speeds).sum ∧
        (active_fan_speeds fan_speeds).sum <
          ((active_fan_speeds fan_speeds).length : Int) * (avg + 1) ∧
        (∀ l, lvl = some l ↔ ∃ k m, l = 1 + k ∧ fan_speed_levels[k]? = some m ∧
          (avg - 50 ≤ m ∧ m ≤ avg + 50) ∧
          ∀ k' m', k' < k → fan_speed_levels[k']? = some m' →
            ¬(avg - 50 ≤ m' ∧ m' ≤ avg + 50)) ∧
        (lvl = none ↔ ∀ m ∈ fan_speed_levels, ¬(avg - 50 ≤ m ∧ m ≤ avg + 50))) ∧
    print_speeds_summary [1200, 1210, 1190, 0, 0, 0] = some (1200, some 4) := by
  refine ⟨?_, ?_, by decide⟩
  · intro h
    simp [print_speeds_summary, h]
  · intro h
    set act := active_fan_speeds fan_speeds with hact
    have hpos : ∀ x ∈ act, 0 < x := by
      intro x hx
      rw [hact] at hx
      unfold active_fan_speeds at hx
      simpa using (List.mem_filter.mp hx).2
    have hsum : 0 < act.sum := List.sum_pos act hpos h
    have hlenpos : 0 < (act.length : Int) := by
      have := List.length_pos.mpr h
      omega
    refine ⟨act.sum / (act.length : Int), classify_level (act.sum / (act.length : Int)), ?_,
      ?_, ?_, ?_, ?_⟩
    · simp only [print_speeds_summary]
      rw [if_neg (by simp [List.isEmpty_iff, h])]
    · have hdm := Int.ediv_add_emod act.sum (act.length : Int)
      have hnn := Int.emod_nonneg act.sum (by omega : (act.length : Int) ≠ 0)
      linarith
    · have hdm := Int.ediv_add_emod act.sum (act.length : Int)
      have hlt := Int.emod_lt_of_pos act.sum hlenpos
      have hexp : (act.length : Int) * (act.sum / (act.length : Int) + 1) =
          (act.length : Int) * (act.sum / (act.length : Int)) + (act.length : Int) := by ring
      linarith
    · intro l
      rw [classify_level, classifyAux_some_iff]
    · rw [classify_level, classifyAux_none_iff]

/-- Witness for C5 at the spec's own example readings. -/
theorem C5_summary_witness :
    ([1200, 1210, 1190, 0, 0, 0] : List Int).length = 6 ∧
      active_fan_speeds [1200, 1210, 1190, 0, 0, 0] ≠ [] ∧
      ∃ avg lvl, print_speeds_summary [1200, 1210, 1190, 0, 0, 0] = some (avg, lvl) ∧
        ((active_fan_speeds [1200, 1210, 1190, 0, 0, 0]).length : Int) * avg ≤
          (active_fan_speeds [1200, 1210, 1190, 0, 0, 0]).sum ∧
        (active_fan_speeds [1200, 1210, 1190, 0, 0, 0]).sum <
          ((active_fan_speeds [1200, 1210, 1190, 0, 0, 0]).length : Int) * (avg + 1) ∧
        (∀ l, lvl = some l ↔ ∃ k m, l = 1 + k ∧ fan_speed_levels[k]? = some m ∧
          (avg - 50 ≤ m ∧ m ≤ avg + 50) ∧
          ∀ k' m', k' < k → fan_speed_levels[k']? = some m' →
            ¬(avg - 50 ≤ m' ∧ m' ≤ avg + 50)) ∧
        (lvl = none ↔ ∀ m ∈ fan_speed_levels, ¬(avg - 50 ≤ m ∧ m ≤ avg + 50)) :=
  ⟨by decide, by decide,
    (C5_summary [1200, 1210, 1190, 0, 0, 0] (by decide)).2.1 (by decide)⟩

/-- C10: for every truncated mean, at most one midpoint of the table
lies in the inclusive ±50 window (consecutive midpoints differ by more
than 100), so any matching position is the one the ascending
first-match scan reports — the result is independent of scan order. -/
theorem C10_unique_level (avg : Int) :
    fan_speed_levels.countP (fun m => decide (avg - 50 ≤ m ∧ m ≤ avg + 50)) ≤ 1 ∧
    (∀ l m, 1 ≤ l → fan_speed_levels[l - 1]? = some m → avg - 50 ≤ m → m ≤ avg + 50 →
      classify_level avg = some l) := by
  refine ⟨countP_window_le_one avg _ fan_speed_levels_gap, ?_⟩
  intro l m h1 hget hlo hhi
  rw [classify_level, classifyAux_some_iff]
  refine ⟨l - 1, m, by omega, hget, ⟨hlo, hhi⟩, ?_⟩
  intro k' m' hk' hget' hw'
  have hpw := fan_speed_levels_gap
  rw [List.pairwise_iff_getElem] at hpw
  obtain ⟨hk'lt, he'⟩ := List.getElem?_eq_some_iff.mp hget'
  obtain ⟨hklt, he⟩ := List.getElem?_eq_some_iff.mp hget
  have hg := hpw k' (l - 1) hk'lt hklt (by omega)
  rw [he', he] at hg
  omega

/-- Witness for C10 at mean 1200: midpoint 1250 at position 4 matches,
so level 4 is reported. -/
theorem C10_unique_level_witness :
    fan_speed_levels.countP
      (fun m => decide ((1200 : Int) - 50 ≤ m ∧ m ≤ (1200 : Int) + 50)) ≤ 1 ∧
    (1 : Nat) ≤ 4 ∧ fan_speed_levels[4 - 1]? = some 1250 ∧
    (1200 : Int) - 50 ≤ 1250 ∧ (1250 : Int) ≤ 1200 + 50 ∧
    classify_level 1200 = some 4 :=
  ⟨(C10_unique_level 1200).1, by decide, by decide, by decide, by decide,
    (C10_unique_level 1200).2 4 1250 (by decide) (by decide) (by decide) (by decide)⟩

/-! ## Claims about the enumerator, error containment and the binary
override -/

/-- If any element of the list maps to `none`, the monadic map over
`Option` fails. -/
theorem mapM_eq_none_of_mem {α β : Type} (f : α → Option β) :
    ∀ (l : List α) (a : α), a ∈ l → f a = none → l.mapM f = none := by
  intro l
  induction l with
  | nil => intro a ha; simp at ha
  | cons b l ih =>
    intro a ha hnone
    rw [List.mapM_cons]
    rcases List.mem_cons.mp ha with h | h
    · subst h
      rw [hnone]
      rfl
    · rw [ih a h hnone]
      rcases f b with _ | v
      · rfl
      · rfl

/-- C4 (amended): the enumerator returns, in discovery order, only
paths whose `stat` succeeded with character-device mode bits; it never
returns two paths with equal (major, minor) keys — at most one entry
per key, rather than the claimed exactly one — and a path whose `stat`
fails is skipped without affecting the rest of the enumeration. -/
theorem C4_enumerator (stat : String → Option DevStat) (sgSes : String → Option (List Char))
    (paths : List String) :
    (find_sa120_devices stat sgSes paths).Sublist paths ∧
    (∀ p ∈ find_sa120_devices stat sgSes paths,
      ∃ stats, stat p = some stats ∧ stats.st_mode_ischr = true) ∧
    (find_sa120_devices stat sgSes paths).Pairwise
      (fun p q => (stat p).map deviceKey ≠ (stat q).map deviceKey) ∧
    (∀ p rest, stat p = none →
      find_sa120_devices stat sgSes (p :: rest) = find_sa120_devices stat sgSes rest) := by
  have hinv := find_foldl_inv stat sgSes paths ([], []) ⟨by simp, by simp⟩
  obtain ⟨extra, he, hsub⟩ := find_foldl_sublist stat sgSes paths ([], [])
  refine ⟨?_, ?_, ?_, ?_⟩
  · unfold find_sa120_devices
    rw [he]
    simpa using hsub
  · intro p hp
    obtain ⟨stats, h1, h2, _⟩ := hinv.1 p hp
    exact ⟨stats, h1, h2⟩
  · refine (hinv.2).imp ?_
    intro p q h hkeys
    apply h
    unfold statKey
    rcases hp : stat p with _ | stp <;> rcases hq : stat q with _ | stq <;>
      simp_all [deviceKey, format_device_id, Prod.ext_iff]
  · intro p rest hstat
    unfold find_sa120_devices
    simp only [List.foldl_cons]
    have hstep : find_step stat sgSes ([], []) p = ([], []) := by
      unfold find_step
      rw [hstat]
    rw [hstep]

/-- Concrete `stat` oracle: two paths with the same (8, 0) device
number, one path whose `stat` fails. -/
def statDemo : String → Option DevStat :=
  fun p =>
    if p = "/dev/bsg/0" then none
    else if p = "/dev/sda" then some ⟨false, 8, 0⟩
    else some ⟨true, 8, 0⟩

/-- Concrete identification oracle whose output always carries the
signature. -/
def sgSesYes : String → Option (List Char) :=
  fun _ => some ("abc ThinkServerSA120 fan enclosure".data)

/-- Witness for C4: two duplicate paths collapse to one entry, the
stat-failing path is skipped, and the result is ordered and key
distinct. -/
theorem C4_enumerator_witness :
    (find_sa120_devices statDemo sgSesYes ["/dev/sg0", "/dev/sg1"]).Sublist
      ["/dev/sg0", "/dev/sg1"] ∧
    (∀ p ∈ find_sa120_devices statDemo sgSesYes ["/dev/sg0", "/dev/sg1"],
      ∃ stats, statDemo p = some stats ∧ stats.st_mode_ischr = true) ∧
    (find_sa120_devices statDemo sgSesYes ["/dev/sg0", "/dev/sg1"]).Pairwise
      (fun p q => (statDemo p).map deviceKey ≠ (statDemo q).map deviceKey) ∧
    statDemo "/dev/bsg/0" = none ∧
    find_sa120_devices statDemo sgSesYes ["/dev/bsg/0", "/dev/sg0"] =
      find_sa120_devices statDemo sgSesYes ["/dev/sg0"] ∧
    find_sa120_devices statDemo sgSesYes ["/dev/sg0", "/dev/sg1"] = ["/dev/sg0"] :=
  ⟨(C4_enumerator statDemo sgSesYes ["/dev/sg0", "/dev/sg1"]).1,
    (C4_enumerator statDemo sgSesYes ["/dev/sg0", "/dev/sg1"]).2.1,
    (C4_enumerator statDemo sgSesYes ["/dev/sg0", "/dev/sg1"]).2.2.1,
    by decide,
    (C4_enumerator statDemo sgSesYes ["/dev/sg0", "/dev/sg1"]).2.2.2 "/dev/bsg/0" ["/dev/sg0"]
      (by decide),
    by decide⟩

/-- Concrete identification oracle that never finds the signature. -/
def sgSesNo : String → Option (List Char) :=
  fun _ => some ("no enclosure here".data)

/-- C4 counterexample: two distinct character-device paths share the
key (8, 0), yet the function returns zero entries for that key (the
signature check rejects the device), not exactly one. -/
theorem C4_counterexample :
    ("/dev/sg0" : String) ≠ "/dev/sg1" ∧
    (statDemo "/dev/sg0").map deviceKey = some (8, 0) ∧
    (statDemo "/dev/sg1").map deviceKey = some (8, 0) ∧
    find_sa120_devices statDemo sgSesNo ["/dev/sg0", "/dev/sg1"] = [] := by
  decide

/-- C7 (amended): a nonzero-exit result from the transport is caught
only in the enclosure identifier — there a failing query marks the
device "not found" and enumeration of the remaining devices continues —
while in the fan telemetry decoder a failing per-fan query aborts the
whole invocation (no readings are produced for the remaining fans), and
in the control encoder a failing control-page read aborts the write. -/
theorem C7_containment (stat : String → Option DevStat) (sgSes : String → Option (List Char))
    (sgGet : Nat → Option (List Char)) (readOut : Option (List Char))
    (p1 p2 : String) (st1 st2 : DevStat) (out2 : List Char) (speed : Nat) :
    (stat p1 = some st1 → st1.st_mode_ischr = true → sgSes p1 = none →
      stat p2 = some st2 → st2.st_mode_ischr = true →
      format_device_id st1 ≠ format_device_id st2 →
      sgSes p2 = some out2 → containsSub sa120sig out2 = true →
      find_sa120_devices stat sgSes [p1, p2] = [p2]) ∧
    ((∃ i, i < 6 ∧ sgGet i = none) → print_speeds_readings sgGet = none) ∧
    (readOut = none → set_fan_speeds_result readOut speed = none) := by
  refine ⟨?_, ?_, ?_⟩
  · intro hst1 hch1 hq1 hst2 hch2 hne hq2 hsig
    have s1 : find_step stat sgSes ([], []) p1 = ([], [format_device_id st1]) := by
      unfold find_step
      rw [hst1]
      simp [hch1, hq1]
    have s2 : find_step stat sgSes ([], [format_device_id st1]) p2 =
        ([p2], [format_device_id st2, format_device_id st1]) := by
      unfold find_step
      rw [hst2]
      have hcont : ([format_device_id st1].contains (format_device_id st2)) = false := by
        simp only [List.contains_cons, List.contains_nil, Bool.or_false, beq_iff_eq]
        exact decide_eq_false (fun hx => hne hx.symm)
      simp [hch2, hq2, hsig, hcont]
      exact fun hx => hne hx.symm
    unfold find_sa120_devices
    simp only [List.foldl_cons, List.foldl_nil, s1, s2]
  · rintro ⟨i, hi, hnone⟩
    unfold print_speeds_readings
    refine mapM_eq_none_of_mem _ (List.range 6) i ?_ ?_
    · simp [List.mem_range, hi]
    · rw [hnone]
      rfl
  · intro h
    rw [h]
    rfl

/-- Per-fan oracle for the witness: fan 4 fails, the others answer. -/
def sgGetPartial : Nat → Option (List Char) :=
  fun i => if i = 4 then none else some ("1250".data)

/-- Stat oracle with two distinct device numbers. -/
def statTwo : String → Option DevStat :=
  fun p => if p = "/dev/sg0" then some ⟨true, 8, 0⟩ else some ⟨true, 8, 1⟩

/-- Identification oracle failing on the first path and matching on the
second. -/
def sgSesPartial : String → Option (List Char) :=
  fun p =>
    if p = "/dev/sg0" then none
    else some ("x ThinkServerSA120 y".data)

/-- Witness for C7: the identifier skips the failing first device and
still returns the second; one failing fan query yields no readings; a
failed control-page read yields no write payload. -/
theorem C7_containment_witness :
    statTwo "/dev/sg0" = some ⟨true, 8, 0⟩ ∧
    sgSesPartial "/dev/sg0" = none ∧
    statTwo "/dev/sg1" = some ⟨true, 8, 1⟩ ∧
    format_device_id ⟨true, 8, 0⟩ ≠ format_device_id ⟨true, 8, 1⟩ ∧
    sgSesPartial "/dev/sg1" = some ("x ThinkServerSA120 y".data) ∧
    containsSub sa120sig ("x ThinkServerSA120 y".data) = true ∧
    find_sa120_devices statTwo sgSesPartial ["/dev/sg0", "/dev/sg1"] = ["/dev/sg1"] ∧
    (∃ i, i < 6 ∧ sgGetPartial i = none) ∧
    print_speeds_readings sgGetPartial = none ∧
    set_fan_speeds_result none 3 = none :=
  ⟨by decide, by decide, by decide, by decide, by decide, by decide,
    (C7_containment statTwo sgSesPartial sgGetPartial none "/dev/sg0" "/dev/sg1"
      ⟨true, 8, 0⟩ ⟨true, 8, 1⟩ ("x ThinkServerSA120 y".data) 3).1
      (by decide) (by decide) (by decide) (by decide) (by decide) (by decide)
      (by decide) (by decide),
    ⟨4, by decide, by decide⟩,
    (C7_containment statTwo sgSesPartial sgGetPartial none "/dev/sg0" "/dev/sg1"
      ⟨true, 8, 0⟩ ⟨true, 8, 1⟩ ("x ThinkServerSA120 y".data) 3).2.1 ⟨4, by decide, by decide⟩,
    (C7_containment statTwo sgSesPartial sgGetPartial none "/dev/sg0" "/dev/sg1"
      ⟨true, 8, 0⟩ ⟨true, 8, 1⟩ ("x ThinkServerSA120 y".data) 3).2.2 rfl⟩

/-- Per-fan oracle for the counterexample: only fan 0 fails. -/
def sgGetFail : Nat → Option (List Char) :=
  fun i => if i = 0 then none else some ("1200".data)

/-- C7 counterexample: only fan 0's query fails and fans 1..5 all
answer, yet the telemetry invocation produces no readings at all — the
per-fan transport failure is not caught and aborts the remaining
fans. -/
theorem C7_counterexample :
    sgGetFail 0 = none ∧
    (∀ i, 1 ≤ i → i < 6 → (sgGetFail i).isSome) ∧
    print_speeds_readings sgGetFail = none := by
  refine ⟨rfl, by decide, ?_⟩
  decide

/-- The environment of the C8 scenario: `sg_ses_path` is set. -/
def envDemo : String → Option String :=
  fun k => if k = "sg_ses_path" then some "/opt/sg_ses" else none

/-- C8: with the `sg_ses_path` override present, the identification
and per-fan telemetry commands use the overridden binary, but the
control-page read and write commands of `set_fan_speeds` still invoke
the literal `"sg_ses"` — the override is not used by every transport
invocation. -/
theorem C8_override_ignored :
    sg_ses_binary envDemo = "/opt/sg_ses" ∧
    (identify_argv envDemo "/dev/sg3")[0]? = some "/opt/sg_ses" ∧
    (get_fan_argv envDemo 0 "/dev/sg3")[0]? = some "/opt/sg_ses" ∧
    (control_read_argv "/dev/sg3")[0]? = some "sg_ses" ∧
    (control_write_argv "/dev/sg3")[0]? = some "sg_ses" ∧
    ("sg_ses" : String) ≠ "/opt/sg_ses" := by
  decide
